import Mathlib

/-!
Verification of the AddressSanitizer allocator core
(src/asan/asan_allocator.cc, src/asan/asan_thread.cc).

This file is a shallow embedding of the allocator: pure C helper
functions become Lean functions on Nat; the stateful allocator becomes
explicit state passing over an address-indexed map of chunk headers.
The model fixes the 64-bit configuration (__WORDSIZE == 64); machine
integers are Nat, with an explicit reduction modulo 2 ^ 64 at the one
place the claims depend on wraparound (the calloc multiplication).
Shadow poisoning and the byte writes memset / memcpy / stack-trace
compression do not change any chunk-header field of a live chunk; the
model records them as an event trace instead of simulating byte memory.
CHECK(...) failures in the source abort the process; the model returns
an error value (or Option none) for them.

REDZONE is the runtime flag __asan_flag_redzone; it is threaded through
the model as an explicit argument named redzone.
-/

/-- __WORDSIZE of the modelled build (64-bit). -/
def wordSizeBits : Nat := 64

/-- asan_allocator.cc line 50. -/
def kMallocSizeClassStepLog : Nat := 26

/-- asan_allocator.cc line 51: 1UL << kMallocSizeClassStepLog. -/
def kMallocSizeClassStep : Nat := 2 ^ kMallocSizeClassStepLog

/-- asan_allocator.cc line 56 (64-bit branch): 8UL << 30. -/
def kMaxAllowedMallocSize : Nat := 8 * 2 ^ 30

/-- asan_allocator.cc line 45: 1 << 20. -/
def kMaxThreadLocalQuarantine : Nat := 2 ^ 20

/-- asan_allocator.cc line 46: 1 << 17. -/
def kMaxSizeForThreadLocalFreeList : Nat := 2 ^ 17

/-- asan_allocator.cc line 43: kPageSize * 1024.  kPageSize comes from a
header that is not part of src/, so it is kept as a parameter. -/
def kMinMmapSize (kPageSize : Nat) : Nat := kPageSize * 1024

/-- asan_allocator.cc line 69: (x & (x - 1)) == 0.  (Note: as in the
source, 0 is reported as a power of two; Nat subtraction gives the same
AND result as the unsigned wraparound does.) -/
def isPowerOfTwo (x : Nat) : Bool := x &&& (x - 1) == 0

/-- Fuel-driven helper for ctzl; the fuel only enforces structural
termination and is instantiated with the argument itself, which bounds
the number of halvings. -/
def ctzlAux : Nat → Nat → Nat
  | 0, _ => 0
  | fuel + 1, n => if n % 2 = 1 ∨ n = 0 then 0 else ctzlAux fuel (n / 2) + 1

/-- __builtin_ctzl: number of trailing zero bits.  In the source this is
only applied to powers of two (Log2, line 73 CHECKs IsPowerOfTwo). -/
def ctzl (n : Nat) : Nat := ctzlAux n n

/-- __builtin_clzl for arguments in [1, 2^64): 63 minus the index of the
highest set bit. -/
def clzl (x : Nat) : Nat := 63 - Nat.log 2 x

/-- asan_allocator.cc line 78: (size + boundary - 1) & ~(boundary - 1).
The source CHECKs that boundary is a power of two, for which the mask
form equals rounding up to the next multiple. -/
def RoundUpTo (size boundary : Nat) : Nat :=
  ((size + boundary - 1) / boundary) * boundary

/-- asan_allocator.cc lines 83-90.  For a non-power-of-two argument the
source computes up = __WORDSIZE - __builtin_clzl(size) and returns
1UL << up. -/
def RoundUpToPowerOfTwo (size : Nat) : Nat :=
  if isPowerOfTwo size then size else 2 ^ (wordSizeBits - clzl size)

/-- asan_allocator.cc lines 92-99.  (The CHECK against
kNumberOfSizeClasses, a constant from a header not in src/, is an
assertion only and is omitted.) -/
def SizeClassToSize (size_class : Nat) : Nat :=
  if size_class ≤ kMallocSizeClassStepLog then 2 ^ size_class
  else (size_class - kMallocSizeClassStepLog) * kMallocSizeClassStep

/-- asan_allocator.cc lines 101-113. -/
def SizeToSizeClass (size : Nat) : Nat :=
  if size ≤ kMallocSizeClassStep then ctzl (RoundUpToPowerOfTwo size)
  else (size + kMallocSizeClassStep - 1) / kMallocSizeClassStep
         + kMallocSizeClassStepLog

/-- asan_allocator.cc line 170. -/
def CHUNK_AVAILABLE : Nat := 0x573B

/-- asan_allocator.cc line 171. -/
def CHUNK_ALLOCATED : Nat := 0x3204

/-- asan_allocator.cc line 172. -/
def CHUNK_QUARANTINE : Nat := 0x1978

/-- asan_allocator.cc line 173. -/
def CHUNK_MEMALIGN : Nat := 0xDC68

/-- AsanThread::kInvalidTid.  Modelled from the spec: the thread header
is not in src/; the spec states free_tid = Invalid while Allocated and
the source CHECKs alloc_tid >= 0, so Invalid is a negative sentinel. -/
def kInvalidTid : Int := -1

/-- Shadow poison magic for freed heap memory (kAsanHeapFreeMagic).
Modelled from the spec: the value lives in asan_mapping.h, not in src/;
only its identity matters to the claims. -/
def kAsanHeapFreeMagic : Nat := 0xfd

/-- Shadow poison magic for heap left redzones (kAsanHeapLeftRedzoneMagic).
Modelled from the spec: value from a header not in src/. -/
def kAsanHeapLeftRedzoneMagic : Nat := 0xfa

/-- Shadow poison magic for fake-stack frames after return
(kAsanStackAfterReturnMagic).  Modelled from the spec: value from a
header not in src/. -/
def kAsanStackAfterReturnMagic : Nat := 0xf5

/-- ChunkBase (asan_allocator.cc lines 176-188).  A CHUNK_MEMALIGN
forwarder reuses the same layout with only chunk_state and next
meaningful. -/
structure ChunkHdr where
  chunk_state : Nat
  size_class : Nat
  offset : Nat
  alloc_tid : Int
  free_tid : Int
  used_size : Nat
  next : Nat
  deriving DecidableEq

/-- The allocator's memory, seen as a map from addresses to the chunk
headers stored there.  Addresses holding no header map to none. -/
def Heap : Type := Nat → Option ChunkHdr

/-- Write the header c at address a. -/
def hupdate (h : Heap) (a : Nat) (c : ChunkHdr) : Heap :=
  fun x => if x = a then some c else h x

/-- The empty memory. -/
def emptyHeap : Heap := fun _ => none

/-- asan_allocator.cc lines 253-259: subtract REDZONE; if the header
there is a CHUNK_MEMALIGN forwarder, follow its next field.  Returns the
address of the resolved chunk.  (Reading a location that holds no header
reads garbage in the source; the model returns the unresolved address.) -/
def PtrToChunk (redzone : Nat) (h : Heap) (ptr : Nat) : Nat :=
  let mAddr := ptr - redzone
  match h mAddr with
  | some hdr => if hdr.chunk_state = CHUNK_MEMALIGN then hdr.next else mAddr
  | none => mAddr

/-- ChunkBase::Size(): SizeClassToSize of the header stored at a
(0-class if no header is stored there, which the source never does on
the paths modelled). -/
def chunkSizeAt (h : Heap) (a : Nat) : Nat :=
  SizeClassToSize (match h a with | some hdr => hdr.size_class | none => 0)

/-- Events recording the side effects that the model does not simulate
byte-by-byte: shadow poisoning and plain memory writes. -/
inductive Evt where
  | poisonShadow (mem size poison : Nat)
  | poisonPartialRightRedzone (mem size : Nat)
  | memset0 (addr len : Nat)
  | memcpyEvt (dst src len : Nat)
  deriving DecidableEq

/-- Error outcomes: every error aborts the process in the source. -/
inductive Err where
  | outOfMemory
  | checkFail
  | doubleFree (ptr : Nat)
  | notMalloced (ptr : Nat)
  | wildRead
  deriving DecidableEq

/-- Chunk-header memory plus the trace of side effects performed so far
(chronological order, oldest first). -/
structure MemState where
  heap : Heap
  events : List Evt

/-- AsanChunkFifoList (intrusive in the source): the list of chunk
addresses in FIFO order together with the running size_ accumulator. -/
structure FifoList where
  list : List Nat
  size_ : Nat
  deriving DecidableEq

/-- AsanChunkFifoList::Push (lines 277-289): append at the tail and add
the chunk's class size. -/
def fifoPush (h : Heap) (q : FifoList) (n : Nat) : FifoList :=
  { list := q.list ++ [n], size_ := q.size_ + chunkSizeAt h n }

/-- AsanChunkFifoList::PushList (lines 262-275): splice a whole list at
the tail and add its accumulated size. -/
def fifoPushList (q src : FifoList) : FifoList :=
  { list := q.list ++ src.list, size_ := q.size_ + src.size_ }

/-- PageGroup (asan_allocator.cc lines 308-315). -/
structure PageGroup where
  beg : Nat
  end_ : Nat
  size_of_chunk : Nat
  deriving DecidableEq

/-- MallocInfo::FindPageGroupUnlocked (lines 417-425): linear scan for a
registered group whose range contains addr. -/
def FindPageGroup (pgs : List PageGroup) (addr : Nat) : Option PageGroup :=
  pgs.find? (fun g => decide (g.beg ≤ addr ∧ addr < g.end_))

/-- t ? t->tid() : 0 - the thread id recorded by Allocate/Deallocate,
0 when no thread record is present. -/
def currentTid (tid : Option Nat) : Int :=
  match tid with
  | some t => (t : Int)
  | none => 0

/-- The tail of Allocate (asan_allocator.cc lines 634-661), entered once
a chunk m with header hdr has been obtained from a free list: mark it
allocated, compute the user address (installing a CHUNK_MEMALIGN
forwarder at addr - REDZONE when the alignment requires displacing it),
record used_size / offset / tids, and poison the shadow of the body
(plus the partial right redzone when the request is not
REDZONE-aligned).  size1 is the request with 0 already replaced by 1 and
rounded_size = RoundUpTo(size1, REDZONE).  The stack-trace compression
into the left redzone (lines 654-655) writes no header field and is not
recorded. -/
def AllocateCore (redzone alignment size1 rounded_size : Nat) (tid : Option Nat)
    (st : MemState) (m : Nat) (hdr : ChunkHdr) : MemState × Nat :=
  let addr0 := m + redzone
  let addr := if redzone < alignment ∧ ¬ addr0 % alignment = 0
              then RoundUpTo addr0 alignment else addr0
  let h1 : Heap :=
    if redzone < alignment ∧ ¬ addr0 % alignment = 0 then
      hupdate st.heap (addr - redzone)
        { chunk_state := CHUNK_MEMALIGN, size_class := 0, offset := 0,
          alloc_tid := 0, free_tid := 0, used_size := 0, next := m }
    else st.heap
  let hm : ChunkHdr :=
    { chunk_state := CHUNK_ALLOCATED, size_class := hdr.size_class,
      offset := addr - m,
      alloc_tid := currentTid tid,
      free_tid := kInvalidTid, used_size := size1, next := 0 }
  let h2 := hupdate h1 m hm
  let evs :=
    [Evt.poisonShadow addr rounded_size 0]
      ++ (if size1 < rounded_size then
            [Evt.poisonPartialRightRedzone (addr + rounded_size - redzone)
               (size1 % redzone)]
          else [])
  ({ heap := h2, events := st.events ++ evs }, addr)

/-- Allocate (asan_allocator.cc lines 572-662).  The free-list machinery
that produces the chunk (lines 615-632) is abstracted into the argument
m: the address of the chunk the free lists handed out; the source CHECKs
that it is CHUNK_AVAILABLE and that its class size equals
size_to_allocate, modelled as guards.  tid models
AsanThread::GetCurrent() (none when thread-local state is gone, in which
case alloc_tid is recorded as 0, line 652).  Statistics and verbose
printing change no allocator state and are omitted. -/
def Allocate (redzone alignment size : Nat) (tid : Option Nat)
    (st : MemState) (m : Nat) : Except Err (MemState × Nat) :=
  let size1 := if size = 0 then 1 else size
  let rounded_size := RoundUpTo size1 redzone
  let needed_size := rounded_size + redzone
                       + (if redzone < alignment then alignment else 0)
  if kMaxAllowedMallocSize < needed_size then .error .outOfMemory
  else
    let size_to_allocate := SizeClassToSize (SizeToSizeClass needed_size)
    match st.heap m with
    | none => .error .wildRead
    | some hdr =>
      if hdr.chunk_state = CHUNK_AVAILABLE
           ∧ SizeClassToSize hdr.size_class = size_to_allocate then
        .ok (AllocateCore redzone alignment size1 rounded_size tid st m hdr)
      else .error .checkFail

/-- Deallocate (asan_allocator.cc lines 664-713).  On the two error
branches the source prints a diagnostic and aborts before writing
anything: the error value carries the diagnostic kind plus the
unchanged state.  On success: record free_tid, poison the rounded body
with the freed-heap magic, flip the state to CHUNK_QUARANTINE, and push
onto quar - the thread-local quarantine when tid is present, the global
one otherwise (line 711).  The overflow flush of the thread-local
quarantine (lines 706-708) is SwallowThreadLocalMallocStorage, modelled
separately below.  The source CHECKs free_tid == kInvalidTid,
alloc_tid >= 0 and !m->next around the mutation; they are folded into
one guard.  The free-stack compression (lines 689-690) writes into the
chunk's own body, not into any live header, and is not recorded. -/
def Deallocate (redzone : Nat) (tid : Option Nat) (st : MemState)
    (quar : FifoList) (ptr : Nat) :
    Except (Err × MemState × FifoList) (MemState × FifoList) :=
  if ptr = 0 then .ok (st, quar)
  else
    let mAddr := PtrToChunk redzone st.heap ptr
    match st.heap mAddr with
    | none => .error (.wildRead, st, quar)
    | some hdr =>
      if hdr.chunk_state = CHUNK_QUARANTINE then
        .error (.doubleFree ptr, st, quar)
      else if ¬ hdr.chunk_state = CHUNK_ALLOCATED then
        .error (.notMalloced ptr, st, quar)
      else if ¬ (hdr.free_tid = kInvalidTid ∧ 0 ≤ hdr.alloc_tid
                   ∧ hdr.next = 0) then
        .error (.checkFail, st, quar)
      else
        let hdr1 := { hdr with
          free_tid := currentTid tid,
          chunk_state := CHUNK_QUARANTINE }
        let h2 := hupdate st.heap mAddr hdr1
        let rounded_size := RoundUpTo hdr.used_size redzone
        let st2 : MemState :=
          { heap := h2,
            events := st.events
              ++ [Evt.poisonShadow ptr rounded_size kAsanHeapFreeMagic] }
        .ok (st2, fifoPush h2 quar mAddr)

/-- Reallocate (asan_allocator.cc lines 715-735).  m is the fresh chunk
the inner Allocate would draw from the free lists. -/
def Reallocate (redzone : Nat) (tid : Option Nat) (st : MemState)
    (quar : FifoList) (old_ptr new_size m : Nat) :
    Except Err (MemState × FifoList × Option Nat) :=
  if old_ptr = 0 then
    match Allocate redzone 0 new_size tid st m with
    | .error e => .error e
    | .ok (st1, p) => .ok (st1, quar, some p)
  else if new_size = 0 then .ok (st, quar, none)
  else
    match st.heap (PtrToChunk redzone st.heap old_ptr) with
    | none => .error .wildRead
    | some hdr =>
      if ¬ hdr.chunk_state = CHUNK_ALLOCATED then .error .checkFail
      else
        let memcpy_size := min new_size hdr.used_size
        match Allocate redzone 0 new_size tid st m with
        | .error e => .error e
        | .ok (st1, new_ptr) =>
          let st2 := { st1 with events := st1.events
                         ++ [Evt.memcpyEvt new_ptr old_ptr memcpy_size] }
          match Deallocate redzone tid st2 quar old_ptr with
          | .error e => .error e.1
          | .ok (st3, quar3) => .ok (st3, quar3, some new_ptr)

/-- __asan_calloc (asan_allocator.cc lines 751-755).  Both the size
passed to Allocate and the memset length are the size_t product
nmemb * size, which wraps modulo 2^64; there is no overflow check. -/
def __asan_calloc (redzone : Nat) (tid : Option Nat) (st : MemState)
    (nmemb size m : Nat) : Except Err (MemState × Nat) :=
  let total := (nmemb * size) % 2 ^ wordSizeBits
  match Allocate redzone 0 total tid st m with
  | .error e => .error e
  | .ok (st1, res) =>
    .ok ({ st1 with events := st1.events ++ [Evt.memset0 res total] }, res)

/-- MallocInfo::AllocationSize (asan_allocator.cc lines 379-391):
0 unless ptr lies in a registered page group and resolves to a
CHUNK_ALLOCATED chunk, else that chunk's used_size. -/
def AllocationSize (redzone : Nat) (pgs : List PageGroup) (h : Heap)
    (ptr : Nat) : Nat :=
  match FindPageGroup pgs ptr with
  | none => 0
  | some _ =>
    match h (PtrToChunk redzone h ptr) with
    | some hdr => if hdr.chunk_state = CHUNK_ALLOCATED then hdr.used_size else 0
    | none => 0

/-- The address of the first chunk of an intrusive free list (0, the
null pointer, when the list is empty): the value Pop writes into the
recycled chunk's next field. -/
def freeListHead (l : List Nat) : Nat :=
  match l with
  | [] => 0
  | a :: _ => a

/-- A pop event of the quarantine drain loop: the quarantine's byte size
at the moment MallocInfo::Pop ran, the address of the popped chunk, and
that chunk's class size. -/
structure PopEvt where
  sizeBefore : Nat
  chunkAddr : Nat
  chunkSize : Nat
  deriving DecidableEq

/-- The global MallocInfo state (asan_allocator.cc lines 524-529):
chunk-header memory, per-class free lists of chunk addresses, the global
quarantine FIFO, and the registered page groups. -/
structure MallocInfoSt where
  heap : Heap
  free_lists : Nat → List Nat
  quarantine : FifoList
  page_groups : List PageGroup

/-- MallocInfo::Pop (asan_allocator.cc lines 461-481) together with
AsanChunkFifoList::Pop (lines 291-303): take the quarantine's head
chunk, CHECK it is CHUNK_QUARANTINE and that size_ covers it, flip it to
CHUNK_AVAILABLE and push it onto the free list of its size class (the
intrusive push writes the old list head into the chunk's next field).
none models a CHECK failure.  The tid CHECKs (alloc_tid >= 0,
free_tid >= 0) and the statistics are assertions and counters only and
are omitted.  Returns the new state and the pop event. -/
def popStep (st : MallocInfoSt) : Option (MallocInfoSt × PopEvt) :=
  match st.quarantine.list with
  | [] => none
  | m :: rest =>
    match st.heap m with
    | none => none
    | some hdr =>
      if ¬ hdr.chunk_state = CHUNK_QUARANTINE then none
      else
        let sz := SizeClassToSize hdr.size_class
        if st.quarantine.size_ < sz then none
        else
          let h' := hupdate st.heap m
            { hdr with
              chunk_state := CHUNK_AVAILABLE
              next := freeListHead (st.free_lists hdr.size_class) }
          some ({ heap := h',
                  free_lists := fun sc =>
                    if sc = hdr.size_class then m :: st.free_lists sc
                    else st.free_lists sc,
                  quarantine :=
                    { list := rest, size_ := st.quarantine.size_ - sz },
                  page_groups := st.page_groups },
                { sizeBefore := st.quarantine.size_, chunkAddr := m,
                  chunkSize := sz })

/-- The drain loop of SwallowThreadLocalMallocStorage (lines 347-349):
while the quarantine's byte size exceeds the budget, Pop.  Each
iteration removes the head of the quarantine list, so the list length
bounds the iteration count; fuel is instantiated with that length.  A
CHECK failure inside Pop (never reached from a consistent state) stops
the loop, as the process would have aborted. -/
def drainAux : Nat → Nat → MallocInfoSt → MallocInfoSt × List PopEvt
  | 0, _, st => (st, [])
  | fuel + 1, budget, st =>
    if budget < st.quarantine.size_ then
      match popStep st with
      | none => (st, [])
      | some (st1, ev) =>
        let r := drainAux fuel budget st1
        (r.1, ev :: r.2)
    else (st, [])

/-- MallocInfo::SwallowThreadLocalMallocStorage (asan_allocator.cc lines
340-364).  budget is __asan_flag_quarantine_size.  q is the thread's
local quarantine_ and xfl its free_lists_ (x->...); when
eat_free_lists is set each thread-local free list is drained
element-by-element onto the head of the global list, which reverses it.
Returns the new global state and the trace of pop events of the drain
loop. -/
def SwallowThreadLocalMallocStorage (budget : Nat) (st : MallocInfoSt)
    (q : FifoList) (xfl : Nat → List Nat) (eat_free_lists : Bool) :
    MallocInfoSt × List PopEvt :=
  let r :=
    if 0 < q.size_ then
      let stP := { st with quarantine := fifoPushList st.quarantine q }
      drainAux stP.quarantine.list.length budget stP
    else (st, [])
  let st1 := r.1
  let st2 :=
    if eat_free_lists then
      { st1 with free_lists := fun sc => (xfl sc).reverse ++ st1.free_lists sc }
    else st1
  (st2, r.2)

/-- One iteration of the chunk-carving loop of GetNewChunks (lines
506-512): write an Available header of the given class at
mem + i * size, linked through next onto the accumulated list head
(0, the null pointer, initially), and push its address onto the list.
The other header fields are the zeros the fresh anonymous mapping
holds. -/
def chunkCarveStep (size_class size mem : Nat) (acc : Heap × List Nat)
    (i : Nat) : Heap × List Nat :=
  let mAddr := mem + i * size
  let hdr : ChunkHdr :=
    { chunk_state := CHUNK_AVAILABLE, size_class := size_class, offset := 0,
      alloc_tid := 0, free_tid := 0, used_size := 0,
      next := freeListHead acc.2 }
  (hupdate acc.1 mAddr hdr, mAddr :: acc.2)

/-- MallocInfo::GetNewChunks (asan_allocator.cc lines 484-522).  mem is
the address returned by MmapNewPagesAndPoisonShadow (the initial shadow
poisoning of the fresh mapping and the statistics are omitted: the
mapping is fresh so no header changes).  The CHECKs on lines 486, 487,
490 and 498 are modelled as guards (none = abort).  Chunks are carved
at mem + i * size, each set CHUNK_AVAILABLE with the requested class and
linked through next onto the accumulating list head; the page group
occupying the trailing reserved space is registered (append). -/
def GetNewChunks (kPageSize : Nat) (size_class mem : Nat)
    (st : MallocInfoSt) : Option (MallocInfoSt × List Nat) :=
  let size := SizeClassToSize size_class
  if ¬ (isPowerOfTwo (kMinMmapSize kPageSize) = true) then none
  else if ¬ (size < kMinMmapSize kPageSize
               ∨ size % kMinMmapSize kPageSize = 0) then none
  else
    let mmap_size0 := max size (kMinMmapSize kPageSize)
    let n_chunks0 := mmap_size0 / size
    if ¬ n_chunks0 * size = mmap_size0 then none
    else
      let n_chunks := if size < kPageSize then n_chunks0 - 1 else n_chunks0
      let mmap_size := if size < kPageSize then mmap_size0
                       else mmap_size0 + kPageSize
      if ¬ 0 < n_chunks then none
      else
        let r := (List.range n_chunks).foldl
          (chunkCarveStep size_class size mem) (st.heap, [])
        let pg : PageGroup :=
          { beg := mem, end_ := mem + mmap_size, size_of_chunk := size }
        some ({ st with heap := r.1,
                        page_groups := st.page_groups ++ [pg] }, r.2)

/-- AsanFakeStack, per-size-class FIFO variant (asan_allocator.cc lines
793-916).  allocated_size_classes maps a class to its mapping base (0
when not yet mapped); size_classes holds each class's FIFO of free frame
addresses, head = FIFO first. -/
structure AsanFakeStack where
  stack_size_ : Nat
  alive_ : Bool
  allocated_size_classes : Nat → Nat
  size_classes : Nat → List Nat

/-- ClassSize(c) = 1 << (kMinStackFrameSizeLog + c).  Modelled from the
spec: the definition lives in a header not in src/; the spec gives this
formula and keeps kMinStackFrameSizeLog a parameter. -/
def ClassSize (kMinStackFrameSizeLog size_class : Nat) : Nat :=
  2 ^ (kMinStackFrameSizeLog + size_class)

/-- AsanFakeStack::ClassMmapSize (lines 872-874). -/
def ClassMmapSize (fs : AsanFakeStack) : Nat :=
  RoundUpToPowerOfTwo fs.stack_size_

/-- AsanFakeStack::ComputeSizeClass (lines 815-824); the CHECKs are
assertions.  Log2(RoundUpToPowerOfTwo(alloc_size)) via ctzl as in the
source. -/
def ComputeSizeClass (kMinStackFrameSizeLog alloc_size : Nat) : Nat :=
  let lg := ctzl (RoundUpToPowerOfTwo alloc_size)
  if lg < kMinStackFrameSizeLog then 0 else lg - kMinStackFrameSizeLog

/-- AsanFakeStack::AddrIsInSizeClass (lines 800-805). -/
def AddrIsInSizeClass (fs : AsanFakeStack) (addr size_class : Nat) : Bool :=
  let mem := fs.allocated_size_classes size_class
  decide (¬ mem = 0 ∧ mem ≤ addr ∧ addr < mem + ClassMmapSize fs)

/-- AsanFakeStack::AllocateOneSizeClass (lines 876-893): carve the fresh
mapping new_mem into ClassMmapSize / ClassSize frames and FifoPush each
(push appends at the FIFO tail). -/
def AllocateOneSizeClass (kMinStackFrameSizeLog : Nat) (fs : AsanFakeStack)
    (size_class new_mem : Nat) : AsanFakeStack :=
  let csize := ClassSize kMinStackFrameSizeLog size_class
  let frames := (List.range (ClassMmapSize fs / csize)).map
    (fun i => new_mem + i * csize)
  { fs with
    size_classes := fun sc =>
      if sc = size_class then fs.size_classes sc ++ frames
      else fs.size_classes sc,
    allocated_size_classes := fun sc =>
      if sc = size_class then new_mem else fs.allocated_size_classes sc }

/-- AsanFakeStack::AllocateStack (lines 895-906).  new_mem is the
address the lazy AllocateOneSizeClass mapping would get.  none models a
CHECK failure (not alive, size above kMaxStackMallocSize - a constant
from a header not in src/, kept as a parameter - or an exhausted FIFO). -/
def AllocateStack (kMinStackFrameSizeLog kMaxStackMallocSize : Nat)
    (fs : AsanFakeStack) (size new_mem : Nat) :
    Option (AsanFakeStack × Nat × List Evt) :=
  if ¬ (fs.alive_ = true ∧ size ≤ kMaxStackMallocSize) then none
  else
    let sc := ComputeSizeClass kMinStackFrameSizeLog size
    let fs1 := if fs.allocated_size_classes sc = 0
               then AllocateOneSizeClass kMinStackFrameSizeLog fs sc new_mem
               else fs
    match fs1.size_classes sc with
    | [] => none
    | p :: rest =>
      if p = 0 then none
      else some ({ fs1 with size_classes := fun c =>
                     if c = sc then rest else fs1.size_classes c },
                 p, [Evt.poisonShadow p size 0])

/-- AsanFakeStack::DeallocateStack (lines 908-916): poison the frame
with the stack-after-return magic and push it back onto its class's
FIFO. -/
def DeallocateStack (kMinStackFrameSizeLog : Nat) (fs : AsanFakeStack)
    (ptr size : Nat) : Option (AsanFakeStack × List Evt) :=
  if ¬ fs.alive_ = true then none
  else
    let sc := ComputeSizeClass kMinStackFrameSizeLog size
    if fs.allocated_size_classes sc = 0 then none
    else if ¬ (AddrIsInSizeClass fs ptr sc = true
                 ∧ AddrIsInSizeClass fs (ptr + size - 1) sc = true) then none
    else
      some ({ fs with size_classes := fun c =>
                if c = sc then fs.size_classes c ++ [ptr]
                else fs.size_classes c },
            [Evt.poisonShadow ptr size kAsanStackAfterReturnMagic])

/-- __asan_stack_malloc (asan_allocator.cc lines 918-927).  t models
AsanThread::GetCurrent()'s fake stack: none when the TSD is gone, in
which case the real stack address is returned untouched. -/
def __asan_stack_malloc (kMinStackFrameSizeLog kMaxStackMallocSize : Nat)
    (t : Option AsanFakeStack) (size real_stack new_mem : Nat) :
    Option (Option AsanFakeStack × Nat × List Evt) :=
  match t with
  | none => some (none, real_stack, [])
  | some fs =>
    match AllocateStack kMinStackFrameSizeLog kMaxStackMallocSize fs size
            new_mem with
    | none => none
    | some (fs1, p, evs) => some (some fs1, p, evs)

/-- __asan_stack_free (asan_allocator.cc lines 929-942): when ptr equals
the real stack address the earlier __asan_stack_malloc returned it, so
nothing happens; when the TSD is gone nothing happens either. -/
def __asan_stack_free (kMinStackFrameSizeLog : Nat)
    (t : Option AsanFakeStack) (ptr size real_stack : Nat) :
    Option (Option AsanFakeStack × List Evt) :=
  if ptr = real_stack then some (t, [])
  else
    match t with
    | none => some (none, [])
    | some fs =>
      match DeallocateStack kMinStackFrameSizeLog fs ptr size with
      | none => none
      | some (fs1, evs) => some (some fs1, evs)

/-- "chunk_from_user_pointer(p) is a live allocation of at least req
bytes": the header at the resolved chunk address is CHUNK_ALLOCATED and
its used_size is at least req. -/
def LiveAllocated (redzone : Nat) (h : Heap) (p req : Nat) : Prop :=
  ∃ hdr, h (PtrToChunk redzone h p) = some hdr
    ∧ hdr.chunk_state = CHUNK_ALLOCATED ∧ req ≤ hdr.used_size

/-- The representation invariant the source maintains for a quarantine
FIFO: the size_ accumulator equals the sum of the member chunks' class
sizes, and every member address holds a CHUNK_QUARANTINE header. -/
def FifoConsistent (h : Heap) (q : FifoList) : Prop :=
  q.size_ = (q.list.map (chunkSizeAt h)).sum
  ∧ ∀ m ∈ q.list, ∃ hdr, h m = some hdr
      ∧ hdr.chunk_state = CHUNK_QUARANTINE

theorem ctzlAux_two_pow (fuel k : Nat) (h : k < fuel) :
    ctzlAux fuel (2 ^ k) = k := by
  induction fuel generalizing k with
  | zero => omega
  | succ fuel ih =>
    cases k with
    | zero => simp [ctzlAux]
    | succ j =>
      have hmod : 2 ^ (j + 1) % 2 = 0 := by
        rw [Nat.pow_succ]; exact Nat.mul_mod_left _ _
      have hne : 0 < 2 ^ (j + 1) := Nat.pos_pow_of_pos _ (by decide)
      have hcond : ¬ (2 ^ (j + 1) % 2 = 1 ∨ 2 ^ (j + 1) = 0) := by omega
      have hdiv : 2 ^ (j + 1) / 2 = 2 ^ j := by
        rw [Nat.pow_succ, Nat.mul_div_cancel _ (by decide)]
      simp only [ctzlAux, if_neg hcond, hdiv, ih j (by omega)]


theorem ctzl_two_pow (k : Nat) : ctzl (2 ^ k) = k :=
  ctzlAux_two_pow _ _ (Nat.lt_two_pow k)

theorem isPowerOfTwo_two_pow (k : Nat) : isPowerOfTwo (2 ^ k) = true := by
  have hz : 2 ^ k &&& (2 ^ k - 1) = 0 := by
    apply Nat.eq_of_testBit_eq
    intro i
    simp only [Nat.testBit_and, Nat.testBit_two_pow, Nat.testBit_two_pow_sub_one,
      Nat.zero_testBit, Bool.and_eq_false_iff, decide_eq_false_iff_not]
    omega
  simp [isPowerOfTwo, hz]

theorem isPowerOfTwo_eq_two_pow {s : Nat} (hs : 0 < s)
    (h : isPowerOfTwo s = true) : s = 2 ^ Nat.log 2 s := by
  have hle : 2 ^ Nat.log 2 s ≤ s := Nat.pow_log_le_self 2 hs.ne'
  have hlt : s < 2 ^ (Nat.log 2 s + 1) :=
    Nat.lt_pow_succ_log_self (by decide) s
  by_contra hne
  have hgt : 2 ^ Nat.log 2 s < s := lt_of_le_of_ne hle (fun he => hne he.symm)
  have hz : s &&& (s - 1) = 0 := by simpa [isPowerOfTwo] using h
  have h2 : 2 ^ (Nat.log 2 s + 1) = 2 * 2 ^ Nat.log 2 s := by
    rw [Nat.pow_succ, Nat.mul_comm]
  have ht1 : Nat.testBit s (Nat.log 2 s) = true := by
    rw [Nat.testBit_to_div_mod]
    have hp : s / 2 ^ Nat.log 2 s = 1 := by
      apply Nat.div_eq_of_lt_le <;> omega
    simp [hp]
  have ht2 : Nat.testBit (s - 1) (Nat.log 2 s) = true := by
    rw [Nat.testBit_to_div_mod]
    have hp : (s - 1) / 2 ^ Nat.log 2 s = 1 := by
      apply Nat.div_eq_of_lt_le <;> omega
    simp [hp]
  have hfalse := congrArg (fun x => Nat.testBit x (Nat.log 2 s)) hz
  simp [Nat.testBit_and, ht1, ht2] at hfalse

theorem roundUpToPowerOfTwo_eq_pow_clog {s : Nat} (h1 : 0 < s)
    (h2 : s ≤ 2 ^ 63) : RoundUpToPowerOfTwo s = 2 ^ Nat.clog 2 s := by
  unfold RoundUpToPowerOfTwo
  by_cases hp : isPowerOfTwo s = true
  · rw [if_pos hp]
    have hs := isPowerOfTwo_eq_two_pow h1 hp
    rw [hs, Nat.clog_pow 2 _ (by decide)]
  · rw [if_neg hp]
    have hlog : Nat.log 2 s ≤ 63 := by
      calc Nat.log 2 s ≤ Nat.log 2 (2 ^ 63) := Nat.log_mono_right h2
      _ = 63 := Nat.log_pow (by decide) 63
    have hexp : wordSizeBits - clzl s = Nat.log 2 s + 1 := by
      unfold wordSizeBits clzl; omega
    have hle : 2 ^ Nat.log 2 s ≤ s := Nat.pow_log_le_self 2 h1.ne'
    have hlt : s < 2 ^ (Nat.log 2 s + 1) :=
      Nat.lt_pow_succ_log_self (by decide) s
    have hne : ¬ s = 2 ^ Nat.log 2 s := by
      intro he
      exact hp (he ▸ isPowerOfTwo_two_pow (Nat.log 2 s))
    have hclog : Nat.clog 2 s = Nat.log 2 s + 1 := by
      have hub : Nat.clog 2 s ≤ Nat.log 2 s + 1 :=
        (Nat.le_pow_iff_clog_le (by decide)).mp (Nat.le_of_lt hlt)
      have hlb : ¬ Nat.clog 2 s ≤ Nat.log 2 s := by
        intro hc
        have := (Nat.le_pow_iff_clog_le (by decide)).mpr hc
        omega
      omega
    rw [hexp, hclog]

theorem le_RoundUpTo (s b : Nat) (hb : 0 < b) : s ≤ RoundUpTo s b := by
  unfold RoundUpTo
  rw [Nat.mul_comm]
  have h := Nat.div_add_mod (s + b - 1) b
  have h2 := Nat.mod_lt (s + b - 1) hb
  omega

theorem RoundUpTo_lt_add (s b : Nat) (hb : 0 < b) : RoundUpTo s b < s + b := by
  unfold RoundUpTo
  have h := Nat.div_mul_le_self (s + b - 1) b
  omega

theorem RoundUpTo_mod (s b : Nat) : RoundUpTo s b % b = 0 :=
  Nat.mul_mod_left _ _

/-- The inverse bound the source CHECKs on line 111:
size <= SizeClassToSize(SizeToSizeClass(size)). -/
theorem le_SizeClassToSize_SizeToSizeClass {s : Nat} (hs : 0 < s) :
    s ≤ SizeClassToSize (SizeToSizeClass s) := by
  unfold SizeToSizeClass
  by_cases hle : s ≤ kMallocSizeClassStep
  · rw [if_pos hle]
    have hbound : s ≤ 2 ^ 63 := by
      unfold kMallocSizeClassStep kMallocSizeClassStepLog at hle
      calc s ≤ 2 ^ 26 := hle
      _ ≤ 2 ^ 63 := Nat.pow_le_pow_right (by decide) (by decide)
    rw [roundUpToPowerOfTwo_eq_pow_clog hs hbound, ctzl_two_pow]
    have hclog : Nat.clog 2 s ≤ 26 := by
      have : s ≤ 2 ^ 26 := hle
      exact (Nat.le_pow_iff_clog_le (by decide)).mp this
    unfold SizeClassToSize kMallocSizeClassStepLog
    rw [if_pos hclog]
    exact Nat.le_pow_clog (by decide) s
  · rw [if_neg hle]
    unfold SizeClassToSize
    have hgt : kMallocSizeClassStep < s := Nat.lt_of_not_le hle
    have hdiv : 1 ≤ (s + kMallocSizeClassStep - 1) / kMallocSizeClassStep := by
      apply Nat.le_div_iff_mul_le (by decide) |>.mpr
      have : 0 < kMallocSizeClassStep := by decide
      omega
    rw [if_neg (by unfold kMallocSizeClassStepLog; omega)]
    have : (s + kMallocSizeClassStep - 1) / kMallocSizeClassStep
             + kMallocSizeClassStepLog - kMallocSizeClassStepLog
           = (s + kMallocSizeClassStep - 1) / kMallocSizeClassStep := by omega
    rw [this]
    exact le_RoundUpTo s kMallocSizeClassStep (by decide)

/-- C7: for every size with 1 <= size <= kMaxAllowedMallocSize,
SizeToSizeClass(size) equals the ceiling of log2(size) when
size <= 2^26 and the ceiling of size / 2^26 plus 26 otherwise, and
SizeClassToSize(SizeToSizeClass(size)) >= size. -/
theorem claim_C7_size_class (size : Nat) (h1 : 1 ≤ size)
    (_h2 : size ≤ kMaxAllowedMallocSize) :
    SizeToSizeClass size
      = (if size ≤ kMallocSizeClassStep then Nat.clog 2 size
         else (size + kMallocSizeClassStep - 1) / kMallocSizeClassStep
                + kMallocSizeClassStepLog)
    ∧ size ≤ SizeClassToSize (SizeToSizeClass size) := by
  constructor
  · unfold SizeToSizeClass
    by_cases hle : size ≤ kMallocSizeClassStep
    · rw [if_pos hle, if_pos hle]
      have hbound : size ≤ 2 ^ 63 := by
        unfold kMallocSizeClassStep kMallocSizeClassStepLog at hle
        calc size ≤ 2 ^ 26 := hle
        _ ≤ 2 ^ 63 := Nat.pow_le_pow_right (by decide) (by decide)
      rw [roundUpToPowerOfTwo_eq_pow_clog h1 hbound, ctzl_two_pow]
    · rw [if_neg hle, if_neg hle]
  · exact le_SizeClassToSize_SizeToSizeClass h1

theorem claim_C7_witness :
    1 ≤ 300 ∧ (300 : Nat) ≤ kMaxAllowedMallocSize
    ∧ (SizeToSizeClass 300
         = (if (300 : Nat) ≤ kMallocSizeClassStep then Nat.clog 2 300
            else (300 + kMallocSizeClassStep - 1) / kMallocSizeClassStep
                   + kMallocSizeClassStepLog)
       ∧ (300 : Nat) ≤ SizeClassToSize (SizeToSizeClass 300)) :=
  ⟨by decide, by decide, claim_C7_size_class 300 (by decide) (by decide)⟩

/-- C9: __asan_stack_malloc returns real_stack itself when there is no
current thread record, with no state change and no poisoning; and
__asan_stack_free with ptr equal to real_stack changes nothing (no
shadow poisoning, no FIFO push). -/
theorem claim_C9_stack_sentinels :
    (∀ (minLog maxSz size real_stack new_mem : Nat),
       __asan_stack_malloc minLog maxSz none size real_stack new_mem
         = some (none, real_stack, []))
    ∧ (∀ (minLog size real_stack : Nat) (t : Option AsanFakeStack),
       __asan_stack_free minLog t real_stack size real_stack = some (t, [])) := by
  constructor
  · intro minLog maxSz size real_stack new_mem
    rfl
  · intro minLog size real_stack t
    unfold __asan_stack_free
    rw [if_pos rfl]

/-- C6: Reallocate(old, 0, stack) with old nonnull returns null and
leaves the entire allocator state - in particular the chunk owning old,
its shadow poisoning events, and every quarantine - unchanged. -/
theorem claim_C6_realloc_zero (redzone : Nat) (tid : Option Nat)
    (st : MemState) (quar : FifoList) (old_ptr m : Nat)
    (h : ¬ old_ptr = 0) :
    Reallocate redzone tid st quar old_ptr 0 m
      = Except.ok (st, quar, none) := by
  unfold Reallocate
  rw [if_neg h, if_pos rfl]

theorem claim_C6_witness :
    ¬ (1 : Nat) = 0
    ∧ Reallocate 128 none (MemState.mk emptyHeap []) (FifoList.mk [] 0) 1 0 0
        = Except.ok (MemState.mk emptyHeap [], FifoList.mk [] 0, none) :=
  ⟨by decide, claim_C6_realloc_zero 128 none _ _ 1 0 (by decide)⟩

/-- C4: Deallocate on a nonnull pointer resolving to a Quarantined chunk
produces the double-free diagnostic (free-site stack printed, address
described) and aborts; on a chunk neither Quarantined nor Allocated it
produces the free-of-non-malloced-pointer diagnostic and aborts; in both
cases the error carries the input state and quarantine unchanged: no
chunk field is modified before the abort. -/
theorem claim_C4_dealloc_errors (redzone : Nat) (tid : Option Nat)
    (st : MemState) (quar : FifoList) (ptr : Nat) (hdr : ChunkHdr)
    (hptr : ¬ ptr = 0)
    (hhdr : st.heap (PtrToChunk redzone st.heap ptr) = some hdr) :
    (hdr.chunk_state = CHUNK_QUARANTINE →
       Deallocate redzone tid st quar ptr
         = Except.error (Err.doubleFree ptr, st, quar))
    ∧ (¬ hdr.chunk_state = CHUNK_QUARANTINE →
       ¬ hdr.chunk_state = CHUNK_ALLOCATED →
       Deallocate redzone tid st quar ptr
         = Except.error (Err.notMalloced ptr, st, quar)) := by
  constructor
  · intro hq
    unfold Deallocate
    rw [if_neg hptr]
    simp only [hhdr]
    rw [if_pos hq]
  · intro h1 h2
    unfold Deallocate
    rw [if_neg hptr]
    simp only [hhdr]
    rw [if_neg h1, if_pos h2]

theorem claim_C4_witness :
    let hq : ChunkHdr := ChunkHdr.mk CHUNK_QUARANTINE 6 128 0 0 20 0
    let st : MemState := MemState.mk (hupdate emptyHeap 1000 hq) []
    let q : FifoList := FifoList.mk [] 0
    ¬ (1128 : Nat) = 0
    ∧ st.heap (PtrToChunk 128 st.heap 1128) = some hq
    ∧ Deallocate 128 none st q 1128
        = Except.error (Err.doubleFree 1128, st, q) := by
  intro hq st q
  refine ⟨by decide, by decide, ?_⟩
  exact (claim_C4_dealloc_errors 128 none st q 1128 hq (by decide)
    (by decide)).1 (by decide)

theorem hupdate_same (h : Heap) (a : Nat) (c : ChunkHdr) :
    hupdate h a c a = some c := by simp [hupdate]

theorem hupdate_other (h : Heap) (a x : Nat) (c : ChunkHdr)
    (hne : ¬ x = a) : hupdate h a c x = h x := by simp [hupdate, hne]

/-- Everything the claims need about the committed allocation step:
the returned pointer resolves back to the chunk m; m's header is
CHUNK_ALLOCATED with the original size class and used_size = size1; the
returned address lies in [m + redzone, m + redzone + alignment]; no
address outside m and the open interval (m, m + alignment) is written;
when the alignment forces displacement a CHUNK_MEMALIGN forwarder whose
next field is m sits at the returned address minus redzone, and
otherwise the returned address is exactly m + redzone. -/
theorem AllocateCore_spec (redzone alignment size1 rounded_size : Nat)
    (tid : Option Nat) (st : MemState) (m : Nat) (hdr : ChunkHdr) :
    let r := AllocateCore redzone alignment size1 rounded_size tid st m hdr
    PtrToChunk redzone r.1.heap r.2 = m
    ∧ (∃ hm : ChunkHdr,
        r.1.heap m = some hm
        ∧ hm.chunk_state = CHUNK_ALLOCATED ∧ hm.size_class = hdr.size_class
        ∧ hm.used_size = size1)
    ∧ m + redzone ≤ r.2
    ∧ r.2 ≤ m + redzone + alignment
    ∧ (∀ a, ¬ a = m → ¬ (m < a ∧ a < m + alignment) →
        r.1.heap a = st.heap a)
    ∧ (redzone < alignment ∧ ¬ (m + redzone) % alignment = 0 →
        r.1.heap (r.2 - redzone)
          = some (ChunkHdr.mk CHUNK_MEMALIGN 0 0 0 0 0 m))
    ∧ (¬ (redzone < alignment ∧ ¬ (m + redzone) % alignment = 0) →
        r.2 = m + redzone) := by
  by_cases hmis : redzone < alignment ∧ ¬ (m + redzone) % alignment = 0
  · have hal : 0 < alignment := by omega
    have hle : m + redzone ≤ RoundUpTo (m + redzone) alignment :=
      le_RoundUpTo _ _ hal
    have hmod : RoundUpTo (m + redzone) alignment % alignment = 0 :=
      RoundUpTo_mod _ _
    have hlt : m + redzone < RoundUpTo (m + redzone) alignment := by
      rcases Nat.eq_or_lt_of_le hle with he | h
      · exact absurd (he ▸ hmod) hmis.2
      · exact h
    have hup : RoundUpTo (m + redzone) alignment < m + redzone + alignment :=
      RoundUpTo_lt_add _ _ hal
    simp only [AllocateCore, if_pos hmis]
    have haddr_ne : ¬ RoundUpTo (m + redzone) alignment - redzone = m := by
      omega
    refine ⟨?_, ⟨_, hupdate_same _ _ _, rfl, rfl, rfl⟩, by omega, by omega,
      ?_, ?_, ?_⟩
    · simp only [PtrToChunk]
      rw [hupdate_other _ _ _ _ haddr_ne, hupdate_same]
      simp [CHUNK_MEMALIGN]
    · intro a hne hout
      rw [hupdate_other _ _ _ _ hne, hupdate_other]
      omega
    · intro _
      rw [hupdate_other _ _ _ _ haddr_ne, hupdate_same]
    · intro hc
      exact absurd hmis hc
  · simp only [AllocateCore, if_neg hmis]
    refine ⟨?_, ⟨_, hupdate_same _ _ _, rfl, rfl, rfl⟩, by omega, by omega,
      ?_, ?_, ?_⟩
    · simp only [PtrToChunk]
      rw [Nat.add_sub_cancel, hupdate_same]
      simp [CHUNK_ALLOCATED, CHUNK_MEMALIGN]
    · intro a hne _
      rw [hupdate_other _ _ _ _ hne]
    · intro hc
      exact absurd hc hmis
    · intro _
      trivial

/-- Successful Allocate runs are exactly AllocateCore on a CHUNK_AVAILABLE
chunk of the computed size class, within the size cap. -/
theorem Allocate_ok (redzone alignment size : Nat) (tid : Option Nat)
    (st : MemState) (m : Nat) (st' : MemState) (p : Nat)
    (h : Allocate redzone alignment size tid st m = Except.ok (st', p)) :
    ∃ hdr : ChunkHdr, st.heap m = some hdr
      ∧ hdr.chunk_state = CHUNK_AVAILABLE
      ∧ SizeClassToSize hdr.size_class
          = SizeClassToSize (SizeToSizeClass
              (RoundUpTo (if size = 0 then 1 else size) redzone + redzone
                + (if redzone < alignment then alignment else 0)))
      ∧ RoundUpTo (if size = 0 then 1 else size) redzone + redzone
          + (if redzone < alignment then alignment else 0)
          ≤ kMaxAllowedMallocSize
      ∧ (st', p) = AllocateCore redzone alignment
          (if size = 0 then 1 else size)
          (RoundUpTo (if size = 0 then 1 else size) redzone) tid st m hdr := by
  unfold Allocate at h
  generalize hs1 : (if size = 0 then 1 else size) = size1 at h ⊢
  generalize hal : (if redzone < alignment then alignment else 0) = alz at h ⊢
  simp only [] at h
  by_cases hkmax : kMaxAllowedMallocSize
      < RoundUpTo size1 redzone + redzone + alz
  · rw [if_pos hkmax] at h
    exact absurd h (by simp)
  · rw [if_neg hkmax] at h
    split at h
    · exact absurd h (by simp)
    · rename_i hdr heq
      split at h
      · rename_i hcond
        refine ⟨hdr, heq, hcond.1, hcond.2, by omega, (Except.ok.inj h).symm⟩
      · exact absurd h (by simp)

theorem PtrToChunk_congr (redzone : Nat) (h h' : Heap) (p : Nat)
    (hsame : h' (p - redzone) = h (p - redzone)) :
    PtrToChunk redzone h' p = PtrToChunk redzone h p := by
  simp only [PtrToChunk]
  rw [hsame]

/-- Successful Deallocate runs are either the null no-op or flip one
CHUNK_ALLOCATED chunk to CHUNK_QUARANTINE in place. -/
theorem Deallocate_ok (redzone : Nat) (tid : Option Nat) (st : MemState)
    (quar : FifoList) (q : Nat) (st' : MemState) (quar' : FifoList)
    (h : Deallocate redzone tid st quar q = Except.ok (st', quar')) :
    (q = 0 ∧ st' = st ∧ quar' = quar)
    ∨ ∃ hdr : ChunkHdr,
        st.heap (PtrToChunk redzone st.heap q) = some hdr
        ∧ hdr.chunk_state = CHUNK_ALLOCATED
        ∧ st'.heap = hupdate st.heap (PtrToChunk redzone st.heap q)
            { hdr with
              free_tid := currentTid tid,
              chunk_state := CHUNK_QUARANTINE } := by
  unfold Deallocate at h
  split at h
  · rename_i hq0
    have hp := Except.ok.inj h
    exact Or.inl ⟨hq0, congrArg Prod.fst hp.symm, congrArg Prod.snd hp.symm⟩
  · simp only [] at h
    split at h
    · exact absurd h (by simp)
    · rename_i hdr heq
      split at h
      · exact absurd h (by simp)
      · split at h
        · exact absurd h (by simp)
        · rename_i hnq hna
          split at h
          · exact absurd h (by simp)
          · have hp := Except.ok.inj h
            refine Or.inr ⟨hdr, heq, Classical.not_not.mp hna, ?_⟩
            have h1 := congrArg (fun x => Prod.fst x) hp
            simp only [] at h1
            subst h1
            rfl

/-- Successful popStep runs: the quarantine head m, CHUNK_QUARANTINE with
class size covered by size_, becomes CHUNK_AVAILABLE, is pushed onto its
class's free list, and the pop event records the size_ before the pop. -/
theorem popStep_ok (st st' : MallocInfoSt) (ev : PopEvt)
    (h : popStep st = some (st', ev)) :
    ∃ (m : Nat) (rest : List Nat) (hdr : ChunkHdr),
      st.quarantine.list = m :: rest
      ∧ st.heap m = some hdr
      ∧ hdr.chunk_state = CHUNK_QUARANTINE
      ∧ SizeClassToSize hdr.size_class ≤ st.quarantine.size_
      ∧ st'.heap = hupdate st.heap m
          { hdr with
            chunk_state := CHUNK_AVAILABLE
            next := freeListHead (st.free_lists hdr.size_class) }
      ∧ st'.quarantine
          = FifoList.mk rest
              (st.quarantine.size_ - SizeClassToSize hdr.size_class)
      ∧ st'.free_lists = (fun sc =>
          if sc = hdr.size_class then m :: st.free_lists sc
          else st.free_lists sc)
      ∧ st'.page_groups = st.page_groups
      ∧ ev = PopEvt.mk st.quarantine.size_ m
          (SizeClassToSize hdr.size_class) := by
  unfold popStep at h
  split at h
  · exact absurd h (by simp)
  · rename_i m rest hlist
    split at h
    · exact absurd h (by simp)
    · rename_i hdr hheap
      split at h
      · exact absurd h (by simp)
      · rename_i hstate
        simp only [] at h
        split at h
        · exact absurd h (by simp)
        · rename_i hsz
          have hp := Option.some.inj h
          have h1 := congrArg (fun x => Prod.fst x) hp
          have h2 := congrArg (fun x => Prod.snd x) hp
          simp only [] at h1 h2
          subst h1
          subst h2
          exact ⟨m, rest, hdr, hlist, hheap, Classical.not_not.mp hstate,
            by omega, rfl, rfl, rfl, rfl, rfl⟩

theorem SizeClassToSize_pos (c : Nat) : 0 < SizeClassToSize c := by
  unfold SizeClassToSize kMallocSizeClassStep kMallocSizeClassStepLog
  split
  · exact Nat.pos_pow_of_pos _ (by decide)
  · rename_i hgt
    have : 0 < c - 26 := by omega
    exact Nat.mul_pos this (by decide)

/-- Reverse lookup either stays at ptr - redzone or follows exactly one
CHUNK_MEMALIGN forwarder stored there. -/
theorem resolve_cases (redzone : Nat) (h : Heap) (p : Nat) :
    PtrToChunk redzone h p = p - redzone
    ∨ ∃ f, h (p - redzone) = some f ∧ f.chunk_state = CHUNK_MEMALIGN
        ∧ PtrToChunk redzone h p = f.next := by
  cases hf : h (p - redzone) with
  | none =>
    left
    simp only [PtrToChunk, hf]
  | some f =>
    by_cases hm : f.chunk_state = CHUNK_MEMALIGN
    · right
      refine ⟨f, rfl, hm, ?_⟩
      simp only [PtrToChunk, hf]
      rw [if_pos hm]
    · left
      simp only [PtrToChunk, hf, if_neg hm]

/-- Overwriting a header at an address that is neither the resolved
chunk of p nor the header slot at p - redzone leaves p's live-allocation
status intact. -/
theorem LiveAllocated_frame (redzone : Nat) (h : Heap) (w : Nat)
    (hdrw' : ChunkHdr) (p req : Nat)
    (hne1 : ¬ p - redzone = w)
    (hne2 : ¬ PtrToChunk redzone h p = w)
    (hL : LiveAllocated redzone h p req) :
    LiveAllocated redzone (hupdate h w hdrw') p req := by
  obtain ⟨hb, hbeq, hbst, hbusz⟩ := hL
  have ha : hupdate h w hdrw' (p - redzone) = h (p - redzone) :=
    hupdate_other _ _ _ _ hne1
  have hcong := PtrToChunk_congr redzone h (hupdate h w hdrw') p ha
  refine ⟨hb, ?_, hbst, hbusz⟩
  rw [hcong, hupdate_other _ _ _ _ hne2]
  exact hbeq

/-- C2: (1) a pointer returned by a successful Allocate resolves via
PtrToChunk to a chunk in state CHUNK_ALLOCATED whose used_size is at
least the requested size; and the property is preserved while the
pointer is not freed: (2) by any successful Deallocate of a pointer
resolving to a different chunk, (3) by any later successful Allocate
drawing a chunk whose storage is disjoint from p's chunk header and
forwarder, and (4) by any quarantine pop. -/
theorem claim_C2_live_pointer :
    (∀ (redzone alignment size : Nat) (tid : Option Nat) (st : MemState)
       (m : Nat) (st' : MemState) (p : Nat),
       Allocate redzone alignment size tid st m = Except.ok (st', p) →
       LiveAllocated redzone st'.heap p size)
    ∧ (∀ (redzone : Nat) (tid : Option Nat) (st : MemState)
         (quar : FifoList) (q : Nat) (st' : MemState) (quar' : FifoList)
         (p req : Nat),
       Deallocate redzone tid st quar q = Except.ok (st', quar') →
       ¬ PtrToChunk redzone st.heap q = PtrToChunk redzone st.heap p →
       LiveAllocated redzone st.heap p req →
       LiveAllocated redzone st'.heap p req)
    ∧ (∀ (redzone alignment size : Nat) (tid : Option Nat) (st : MemState)
         (m : Nat) (hdr : ChunkHdr) (st' : MemState) (p2 p req : Nat),
       st.heap m = some hdr →
       (∀ a, m ≤ a → a < m + SizeClassToSize hdr.size_class →
          ¬ a = PtrToChunk redzone st.heap p ∧ ¬ a = p - redzone) →
       Allocate redzone alignment size tid st m = Except.ok (st', p2) →
       LiveAllocated redzone st.heap p req →
       LiveAllocated redzone st'.heap p req)
    ∧ (∀ (st st' : MallocInfoSt) (ev : PopEvt) (redzone p req : Nat),
       popStep st = some (st', ev) →
       LiveAllocated redzone st.heap p req →
       LiveAllocated redzone st'.heap p req) := by
  refine ⟨?_, ?_, ?_, ?_⟩
  · -- (1) establishment
    intro redzone alignment size tid st m st' p h
    obtain ⟨hdr, hm, hav, hsc, hcap, heq⟩ :=
      Allocate_ok redzone alignment size tid st m st' p h
    have hst : st' = (AllocateCore redzone alignment
        (if size = 0 then 1 else size)
        (RoundUpTo (if size = 0 then 1 else size) redzone) tid st m hdr).1 :=
      congrArg Prod.fst heq
    have hp : p = (AllocateCore redzone alignment
        (if size = 0 then 1 else size)
        (RoundUpTo (if size = 0 then 1 else size) redzone) tid st m hdr).2 :=
      congrArg Prod.snd heq
    obtain ⟨hres, ⟨hm', hm'eq, hmst, hmsc, hmusz⟩, _⟩ :=
      AllocateCore_spec redzone alignment (if size = 0 then 1 else size)
        (RoundUpTo (if size = 0 then 1 else size) redzone) tid st m hdr
    rw [hst, hp]
    unfold LiveAllocated
    rw [hres]
    refine ⟨hm', hm'eq, hmst, ?_⟩
    rw [hmusz]
    split <;> omega
  · -- (2) frame under Deallocate elsewhere
    intro redzone tid st quar q st' quar' p req h hne hL
    rcases Deallocate_ok redzone tid st quar q st' quar' h with
      ⟨_, hst, _⟩ | ⟨hdrq, hqeq, hqst, hheap⟩
    · rw [hst]; exact hL
    · have hne2 : ¬ PtrToChunk redzone st.heap p
          = PtrToChunk redzone st.heap q := fun hc => hne hc.symm
      have hne1 : ¬ p - redzone = PtrToChunk redzone st.heap q := by
        rcases resolve_cases redzone st.heap p with heqp | ⟨f, hf, hfm, _⟩
        · intro hc; exact hne2 (by rw [heqp, hc])
        · intro hc
          rw [hc, hqeq] at hf
          have hfe := Option.some.inj hf
          rw [← hfe, hqst] at hfm
          exact absurd hfm (by decide)
      rw [hheap]
      exact LiveAllocated_frame redzone st.heap _ _ p req hne1 hne2 hL
  · -- (3) frame under a disjoint Allocate
    intro redzone alignment size tid st m hdr st' p2 p req hm hdisj h hL
    obtain ⟨hdr0, hm0, hav, hsc, hcap, heq⟩ :=
      Allocate_ok redzone alignment size tid st m st' p2 h
    have hdreq : hdr0 = hdr := Option.some.inj (hm0.symm.trans hm)
    subst hdreq
    have hSpos : 0 < SizeClassToSize hdr0.size_class :=
      SizeClassToSize_pos _
    have halign : alignment ≤ SizeClassToSize hdr0.size_class := by
      by_cases hA : alignment = 0
      · omega
      · have hneedpos : 0 < RoundUpTo (if size = 0 then 1 else size) redzone
            + redzone + (if redzone < alignment then alignment else 0) := by
          by_cases hra : redzone < alignment
          · rw [if_pos hra]; omega
          · rw [if_neg hra]; omega
        have hinv := le_SizeClassToSize_SizeToSizeClass hneedpos
        rw [← hsc] at hinv
        by_cases hra : redzone < alignment
        · rw [if_pos hra] at hinv; omega
        · rw [if_neg hra] at hinv; omega
    have hst : st' = (AllocateCore redzone alignment
        (if size = 0 then 1 else size)
        (RoundUpTo (if size = 0 then 1 else size) redzone)
        tid st m hdr0).1 :=
      congrArg Prod.fst heq
    obtain ⟨_, _, _, _, hframe, _, _⟩ :=
      AllocateCore_spec redzone alignment (if size = 0 then 1 else size)
        (RoundUpTo (if size = 0 then 1 else size) redzone) tid st m hdr0
    have hbase_out : ¬ (m ≤ PtrToChunk redzone st.heap p
        ∧ PtrToChunk redzone st.heap p
            < m + SizeClassToSize hdr0.size_class) :=
      fun hc => (hdisj _ hc.1 hc.2).1 rfl
    have hpr_out : ¬ (m ≤ p - redzone
        ∧ p - redzone < m + SizeClassToSize hdr0.size_class) :=
      fun hc => (hdisj _ hc.1 hc.2).2 rfl
    have h1 := hframe (p - redzone) (by omega) (by omega)
    have h2 := hframe (PtrToChunk redzone st.heap p) (by omega) (by omega)
    obtain ⟨hb, hbeq, hbst, hbusz⟩ := hL
    have hcong := PtrToChunk_congr redzone st.heap
      (AllocateCore redzone alignment (if size = 0 then 1 else size)
        (RoundUpTo (if size = 0 then 1 else size) redzone)
        tid st m hdr0).1.heap p h1
    rw [hst]
    exact ⟨hb, by rw [hcong, h2]; exact hbeq, hbst, hbusz⟩
  · -- (4) frame under a quarantine pop
    intro st st' ev redzone p req h hL
    obtain ⟨m, rest, hdrm, hlist, hmq, hmst, hsz, hheap, _⟩ :=
      popStep_ok st st' ev h
    obtain ⟨hb, hbeq, hbst, hbusz⟩ := hL
    have hne2 : ¬ PtrToChunk redzone st.heap p = m := by
      intro hc
      rw [hc] at hbeq
      have hbe := Option.some.inj (hmq.symm.trans hbeq)
      rw [← hbe, hmst] at hbst
      exact absurd hbst (by decide)
    have hne1 : ¬ p - redzone = m := by
      rcases resolve_cases redzone st.heap p with heqp | ⟨f, hf, hfm, _⟩
      · intro hc; exact hne2 (by rw [heqp, hc])
      · intro hc
        rw [hc, hmq] at hf
        have hfe := Option.some.inj hf
        rw [← hfe, hmst] at hfm
        exact absurd hfm (by decide)
    rw [hheap]
    exact LiveAllocated_frame redzone st.heap _ _ p req hne1 hne2
      ⟨hb, hbeq, hbst, hbusz⟩

theorem claim_C2_witness :
    let hdr0 : ChunkHdr := ChunkHdr.mk CHUNK_AVAILABLE 8 0 0 0 0 0
    let st0 : MemState := MemState.mk (hupdate emptyHeap 4096 hdr0) []
    ∃ (st' : MemState) (p : Nat),
      Allocate 128 0 10 none st0 4096 = Except.ok (st', p)
      ∧ LiveAllocated 128 st'.heap p 10 := by
  intro hdr0 st0
  refine ⟨_, _, rfl, ?_⟩
  exact claim_C2_live_pointer.1 128 0 10 none st0 4096 _ _ rfl

/-- A successful Allocate leaves, at the resolved chunk of the returned
pointer, a CHUNK_ALLOCATED header with used_size equal to the request
(0 bumped to 1). -/
theorem Allocate_resolves_used (redzone alignment size : Nat)
    (tid : Option Nat) (st : MemState) (m : Nat) (st' : MemState) (p : Nat)
    (h : Allocate redzone alignment size tid st m = Except.ok (st', p)) :
    PtrToChunk redzone st'.heap p = m
    ∧ ∃ hdr, st'.heap m = some hdr
      ∧ hdr.chunk_state = CHUNK_ALLOCATED
      ∧ hdr.used_size = (if size = 0 then 1 else size) := by
  obtain ⟨hdr, hm, hav, hsc, hcap, heq⟩ :=
    Allocate_ok redzone alignment size tid st m st' p h
  have hst : st' = (AllocateCore redzone alignment
      (if size = 0 then 1 else size)
      (RoundUpTo (if size = 0 then 1 else size) redzone) tid st m hdr).1 :=
    congrArg Prod.fst heq
  have hp : p = (AllocateCore redzone alignment
      (if size = 0 then 1 else size)
      (RoundUpTo (if size = 0 then 1 else size) redzone) tid st m hdr).2 :=
    congrArg Prod.snd heq
  obtain ⟨hres, ⟨hm', hm'eq, hmst, hmsc, hmusz⟩, _⟩ :=
    AllocateCore_spec redzone alignment (if size = 0 then 1 else size)
      (RoundUpTo (if size = 0 then 1 else size) redzone) tid st m hdr
  rw [hst, hp]
  exact ⟨hres, hm', hm'eq, hmst, hmusz⟩

/-- C3 counterexample: at n = kMaxAllowedMallocSize (inside the claimed
range 0 < n <= kMaxAllowedMallocSize), malloc does not return a pointer:
needed_size = RoundUpTo(n, REDZONE) + REDZONE exceeds the cap, so
Allocate reports out-of-memory and aborts. -/
theorem claim_C3_counterexample :
    0 < kMaxAllowedMallocSize
    ∧ kMaxAllowedMallocSize ≤ kMaxAllowedMallocSize
    ∧ Allocate 128 0 kMaxAllowedMallocSize none (MemState.mk emptyHeap []) 0
        = Except.error Err.outOfMemory :=
  ⟨by decide, Nat.le_refl _, rfl⟩

/-- C3 (amended): for every n with 0 < n and small enough that
needed_size = RoundUpTo(n, REDZONE) + REDZONE stays within
kMaxAllowedMallocSize - equivalently, whenever malloc(n) succeeds rather
than aborting - the returned pointer p satisfies
AllocationSize(p) = n, provided p lies in a registered page group (as
every pointer handed out by the allocator does). -/
theorem claim_C3_allocation_size (redzone n : Nat) (tid : Option Nat)
    (st : MemState) (m : Nat) (pgs : List PageGroup) (st' : MemState)
    (p : Nat) (g : PageGroup)
    (hn : 0 < n)
    (h : Allocate redzone 0 n tid st m = Except.ok (st', p))
    (hg : FindPageGroup pgs p = some g) :
    AllocationSize redzone pgs st'.heap p = n := by
  obtain ⟨hres, hdr, hm'eq, hmst, hmusz⟩ :=
    Allocate_resolves_used redzone 0 n tid st m st' p h
  simp only [AllocationSize, hg]
  rw [hres]
  simp only [hm'eq]
  rw [if_pos hmst, hmusz, if_neg (by omega)]

theorem claim_C3_witness :
    let hdr0 : ChunkHdr := ChunkHdr.mk CHUNK_AVAILABLE 8 0 0 0 0 0
    let st0 : MemState := MemState.mk (hupdate emptyHeap 4096 hdr0) []
    let pgs : List PageGroup := [PageGroup.mk 4096 8192 256]
    ∃ (st' : MemState) (p : Nat) (g : PageGroup),
      0 < 10
      ∧ Allocate 128 0 10 none st0 4096 = Except.ok (st', p)
      ∧ FindPageGroup pgs p = some g
      ∧ AllocationSize 128 pgs st'.heap p = 10 := by
  intro hdr0 st0 pgs
  refine ⟨_, _, _, by decide, rfl, rfl, ?_⟩
  exact claim_C3_allocation_size 128 10 none st0 4096 pgs _ _ _
    (by decide) rfl rfl

/-- C5: for every allocation request with alignment > REDZONE (a power
of two), the returned user pointer p has a MemalignForwarder header at
p - REDZONE: the header stored there is in state CHUNK_MEMALIGN and its
next field points to the real chunk, which PtrToChunk therefore
resolves.  The divisor hypothesis (some d with REDZONE < d dividing both
the alignment and the chunk base) captures the base alignment every
chunk the free lists can actually hand out has: GetNewChunks carves
chunks at mem + i * unit with mem page-aligned and unit the class size
(a power of two, or a multiple of 2^26, exceeding
needed_size > alignment), so for alignment up to the page size take
d = alignment and for larger alignments take d = the page size.  In
every such state chunk + REDZONE is never alignment-aligned, so line
641 always installs the forwarder. -/
theorem claim_C5_memalign_forwarder (redzone alignment size d : Nat)
    (tid : Option Nat) (st : MemState) (m : Nat) (st' : MemState) (p : Nat)
    (_hpow : isPowerOfTwo alignment = true)
    (hal : redzone < alignment)
    (hrz : 0 < redzone)
    (hd : redzone < d)
    (hda : d ∣ alignment)
    (hdm : d ∣ m)
    (h : Allocate redzone alignment size tid st m = Except.ok (st', p)) :
    st'.heap (p - redzone)
      = some (ChunkHdr.mk CHUNK_MEMALIGN 0 0 0 0 0 m)
    ∧ PtrToChunk redzone st'.heap p = m := by
  have hmis : ¬ (m + redzone) % alignment = 0 := by
    intro hc
    have h1 : alignment ∣ m + redzone := Nat.dvd_of_mod_eq_zero hc
    have h2 : d ∣ m + redzone := dvd_trans hda h1
    have h3 : d ∣ redzone := by
      have h4 := Nat.dvd_sub' h2 hdm
      rwa [Nat.add_sub_cancel_left] at h4
    have := Nat.le_of_dvd hrz h3
    omega
  obtain ⟨hdr, hm, hav, hsc, hcap, heq⟩ :=
    Allocate_ok redzone alignment size tid st m st' p h
  have hst : st' = (AllocateCore redzone alignment
      (if size = 0 then 1 else size)
      (RoundUpTo (if size = 0 then 1 else size) redzone) tid st m hdr).1 :=
    congrArg Prod.fst heq
  have hp : p = (AllocateCore redzone alignment
      (if size = 0 then 1 else size)
      (RoundUpTo (if size = 0 then 1 else size) redzone) tid st m hdr).2 :=
    congrArg Prod.snd heq
  obtain ⟨hres, _, _, _, _, hfwd, _⟩ :=
    AllocateCore_spec redzone alignment (if size = 0 then 1 else size)
      (RoundUpTo (if size = 0 then 1 else size) redzone) tid st m hdr
  constructor
  · rw [hst, hp]
    exact hfwd ⟨hal, hmis⟩
  · rw [hst, hp]
    exact hres

theorem claim_C5_witness :
    let hdr0 : ChunkHdr := ChunkHdr.mk CHUNK_AVAILABLE 9 0 0 0 0 0
    let st0 : MemState := MemState.mk (hupdate emptyHeap 4096 hdr0) []
    ∃ (st' : MemState) (p : Nat),
      isPowerOfTwo 256 = true
      ∧ (128 : Nat) < 256
      ∧ (0 : Nat) < 128
      ∧ (128 : Nat) < 256
      ∧ (256 : Nat) ∣ 256
      ∧ (256 : Nat) ∣ 4096
      ∧ Allocate 128 256 1 none st0 4096 = Except.ok (st', p)
      ∧ st'.heap (p - 128)
          = some (ChunkHdr.mk CHUNK_MEMALIGN 0 0 0 0 0 4096)
      ∧ PtrToChunk 128 st'.heap p = 4096 := by
  intro hdr0 st0
  have H := claim_C5_memalign_forwarder 128 256 1 256 none st0 4096 _ _
    (by decide) (by decide) (by decide) (by decide) (by decide) (by decide)
    rfl
  exact ⟨_, _, by decide, by decide, by decide, by decide, by decide,
    by decide, rfl, H.1, H.2⟩

/-- C10 counterexample: at nmemb = size = 2^32 the mathematical product
2^64 exceeds the word range and wraps to 0, and calloc succeeds - but
the returned chunk's used_size is 1 (Allocate's zero-size substitution),
not the wrapped product 0, so the claim fails as stated. -/
theorem claim_C10_counterexample :
    let hdr0 : ChunkHdr := ChunkHdr.mk CHUNK_AVAILABLE 8 0 0 0 0 0
    let st0 : MemState := MemState.mk (hupdate emptyHeap 4096 hdr0) []
    (2 ^ 32 * 2 ^ 32) % 2 ^ wordSizeBits = 0
    ∧ ∃ (st' : MemState) (p : Nat) (hdr : ChunkHdr),
        __asan_calloc 128 none st0 (2 ^ 32) (2 ^ 32) 4096
          = Except.ok (st', p)
        ∧ st'.heap (PtrToChunk 128 st'.heap p) = some hdr
        ∧ hdr.used_size = 1
        ∧ ¬ hdr.used_size = (2 ^ 32 * 2 ^ 32) % 2 ^ wordSizeBits := by
  intro hdr0 st0
  exact ⟨by decide, _, _, _, rfl, rfl, rfl, by decide⟩

/-- C10 (amended): __asan_calloc computes its byte count as the size_t
product nmemb * size reduced modulo 2^64, with no overflow check: both
the allocation and the zeroing use the wrapped value w, so when the
call returns, the region's used_size equals w - except that a wrapped
value of 0 is bumped to 1 by Allocate's zero-size substitution (and
wrapped values whose needed size exceeds the cap abort instead). -/
theorem claim_C10_calloc_wrap (redzone : Nat) (tid : Option Nat)
    (st : MemState) (nmemb size m : Nat) (st' : MemState) (p : Nat)
    (h : __asan_calloc redzone tid st nmemb size m = Except.ok (st', p)) :
    (∃ stA : MemState,
       Allocate redzone 0 ((nmemb * size) % 2 ^ wordSizeBits) tid st m
         = Except.ok (stA, p)
       ∧ st'.heap = stA.heap
       ∧ st'.events = stA.events
           ++ [Evt.memset0 p ((nmemb * size) % 2 ^ wordSizeBits)])
    ∧ (0 < (nmemb * size) % 2 ^ wordSizeBits →
       ∃ hdr, st'.heap (PtrToChunk redzone st'.heap p) = some hdr
         ∧ hdr.used_size = (nmemb * size) % 2 ^ wordSizeBits) := by
  unfold __asan_calloc at h
  simp only [] at h
  split at h
  · exact absurd h (by simp)
  · rename_i stA res heq
    have hp := Except.ok.inj h
    have h1 := congrArg (fun x => Prod.fst x) hp
    have h2 := congrArg (fun x => Prod.snd x) hp
    simp only [] at h1 h2
    subst h2
    have hst' : st'.heap = stA.heap := by rw [← h1]
    have hev : st'.events = stA.events
        ++ [Evt.memset0 res ((nmemb * size) % 2 ^ wordSizeBits)] := by
      rw [← h1]
    refine ⟨⟨stA, heq, hst', hev⟩, ?_⟩
    intro hw
    obtain ⟨hres, hdr, hm'eq, hmst, hmusz⟩ :=
      Allocate_resolves_used redzone 0 ((nmemb * size) % 2 ^ wordSizeBits)
        tid st m stA res heq
    rw [hst']
    refine ⟨hdr, ?_, ?_⟩
    · rw [hres]; exact hm'eq
    · rw [hmusz, if_neg (by omega)]

set_option maxRecDepth 100000 in
theorem claim_C10_witness :
    ∃ (st' : MemState) (p : Nat),
      __asan_calloc 128 none
          (MemState.mk (hupdate emptyHeap (2 ^ 20)
            (ChunkHdr.mk CHUNK_AVAILABLE 91 0 0 0 0 0)) [])
          (2 ^ 32 + 1) (2 ^ 32) (2 ^ 20)
        = Except.ok (st', p)
      ∧ 0 < ((2 ^ 32 + 1) * 2 ^ 32) % 2 ^ wordSizeBits
      ∧ ∃ hdr, st'.heap (PtrToChunk 128 st'.heap p) = some hdr
          ∧ hdr.used_size = ((2 ^ 32 + 1) * 2 ^ 32) % 2 ^ wordSizeBits := by
  have hok : (match __asan_calloc 128 none
      (MemState.mk (hupdate emptyHeap (2 ^ 20)
        (ChunkHdr.mk CHUNK_AVAILABLE 91 0 0 0 0 0)) [])
      (2 ^ 32 + 1) (2 ^ 32) (2 ^ 20) with
      | Except.ok _ => true
      | Except.error _ => false) = true := rfl
  cases hE : __asan_calloc 128 none
      (MemState.mk (hupdate emptyHeap (2 ^ 20)
        (ChunkHdr.mk CHUNK_AVAILABLE 91 0 0 0 0 0)) [])
      (2 ^ 32 + 1) (2 ^ 32) (2 ^ 20) with
  | error e =>
    rw [hE] at hok
    exact absurd hok (by simp)
  | ok v =>
    refine ⟨v.1, v.2, rfl, by decide, ?_⟩
    exact (claim_C10_calloc_wrap 128 none
      (MemState.mk (hupdate emptyHeap (2 ^ 20)
        (ChunkHdr.mk CHUNK_AVAILABLE 91 0 0 0 0 0)) [])
      (2 ^ 32 + 1) (2 ^ 32) (2 ^ 20) v.1 v.2 hE).2 (by decide)

theorem chunkCarve_spec (size_class size mem : Nat) (hsize : 0 < size)
    (n : Nat) (h0 : Heap) (l0 : List Nat) :
    ((List.range n).foldl (chunkCarveStep size_class size mem) (h0, l0)).2
      = ((List.range n).map (fun i => mem + i * size)).reverse ++ l0
    ∧ ∀ i, i < n →
        ∃ hdr,
          ((List.range n).foldl (chunkCarveStep size_class size mem)
            (h0, l0)).1 (mem + i * size) = some hdr
          ∧ hdr.chunk_state = CHUNK_AVAILABLE
          ∧ hdr.size_class = size_class := by
  induction n with
  | zero => simp
  | succ n ih =>
    constructor
    · rw [List.range_succ, List.foldl_append, List.map_append,
        List.reverse_append]
      simp only [List.foldl_cons, List.foldl_nil, List.map_cons,
        List.map_nil, List.reverse_cons, List.reverse_nil, List.nil_append,
        List.singleton_append, List.cons_append, chunkCarveStep]
      rw [ih.1]
    · intro i hi
      rcases Nat.lt_succ_iff_lt_or_eq.mp hi with hlt | heqi
      · obtain ⟨hdr, hh, h1, h2⟩ := ih.2 i hlt
        refine ⟨hdr, ?_, h1, h2⟩
        rw [List.range_succ, List.foldl_append]
        simp only [List.foldl_cons, List.foldl_nil, chunkCarveStep]
        have hne : ¬ mem + i * size = mem + n * size := by
          have := (Nat.mul_lt_mul_right hsize).mpr hlt
          omega
        rw [hupdate_other _ _ _ _ hne]
        exact hh
      · subst heqi
        rw [List.range_succ, List.foldl_append]
        simp only [List.foldl_cons, List.foldl_nil, chunkCarveStep]
        exact ⟨_, hupdate_same _ _ _, rfl, rfl⟩

/-- C8: a successful free-list refill GetNewChunks(c) returns exactly
max(unit, kMinMmapSize)/unit - 1 chunks when unit < pagesize (one chunk
is held back as the trailing guard) and exactly max(unit,
kMinMmapSize)/unit chunks when unit >= pagesize (the mapping is extended
by one extra page instead); every returned chunk carries state
CHUNK_AVAILABLE and size_class c, and exactly one page group covering
the entire mapping with size_of_chunk = unit is registered. -/
theorem claim_C8_refill (kPageSize size_class mem : Nat)
    (st st' : MallocInfoSt) (lst : List Nat)
    (h : GetNewChunks kPageSize size_class mem st = some (st', lst)) :
    lst.length
      = (if SizeClassToSize size_class < kPageSize
         then max (SizeClassToSize size_class) (kMinMmapSize kPageSize)
                / SizeClassToSize size_class - 1
         else max (SizeClassToSize size_class) (kMinMmapSize kPageSize)
                / SizeClassToSize size_class)
    ∧ (∀ a ∈ lst, ∃ hdr, st'.heap a = some hdr
        ∧ hdr.chunk_state = CHUNK_AVAILABLE
        ∧ hdr.size_class = size_class)
    ∧ st'.page_groups = st.page_groups
        ++ [PageGroup.mk mem
             (mem + (if SizeClassToSize size_class < kPageSize
                     then max (SizeClassToSize size_class)
                            (kMinMmapSize kPageSize)
                     else max (SizeClassToSize size_class)
                            (kMinMmapSize kPageSize) + kPageSize))
             (SizeClassToSize size_class)] := by
  unfold GetNewChunks at h
  by_cases c1 : ¬ isPowerOfTwo (kMinMmapSize kPageSize) = true
  · rw [if_pos c1] at h; exact absurd h (by simp)
  · rw [if_neg c1] at h
    simp only [] at h
    by_cases c2 : ¬ (SizeClassToSize size_class < kMinMmapSize kPageSize
        ∨ SizeClassToSize size_class % kMinMmapSize kPageSize = 0)
    · rw [if_pos c2] at h; exact absurd h (by simp)
    · rw [if_neg c2] at h
      by_cases c3 : ¬ (max (SizeClassToSize size_class)
            (kMinMmapSize kPageSize) / SizeClassToSize size_class
            * SizeClassToSize size_class
          = max (SizeClassToSize size_class) (kMinMmapSize kPageSize))
      · rw [if_pos c3] at h; exact absurd h (by simp)
      · rw [if_neg c3] at h
        by_cases c4 : ¬ 0 < (if SizeClassToSize size_class < kPageSize
            then max (SizeClassToSize size_class) (kMinMmapSize kPageSize)
                   / SizeClassToSize size_class - 1
            else max (SizeClassToSize size_class) (kMinMmapSize kPageSize)
                   / SizeClassToSize size_class)
        · rw [if_pos c4] at h; exact absurd h (by simp)
        · rw [if_neg c4] at h
          have hp := Option.some.inj h
          have h1 := congrArg (fun x => Prod.fst x) hp
          have h2 := congrArg (fun x => Prod.snd x) hp
          simp only [] at h1 h2
          subst h2
          obtain ⟨hl, hmem⟩ := chunkCarve_spec size_class
            (SizeClassToSize size_class) mem (SizeClassToSize_pos _)
            (if SizeClassToSize size_class < kPageSize
             then max (SizeClassToSize size_class) (kMinMmapSize kPageSize)
                    / SizeClassToSize size_class - 1
             else max (SizeClassToSize size_class) (kMinMmapSize kPageSize)
                    / SizeClassToSize size_class)
            st.heap []
          refine ⟨?_, ?_, ?_⟩
          · rw [hl]
            simp
          · intro a ha
            rw [hl] at ha
            simp only [List.append_nil, List.mem_reverse, List.mem_map,
              List.mem_range] at ha
            obtain ⟨i, hi, hai⟩ := ha
            obtain ⟨hdr, hh, hs1, hs2⟩ := hmem i hi
            rw [← h1]
            exact ⟨hdr, hai ▸ hh, hs1, hs2⟩
          · rw [← h1]

theorem claim_C8_witness :
    ∃ (st' : MallocInfoSt) (lst : List Nat),
      GetNewChunks 4096 22 8192
          (MallocInfoSt.mk emptyHeap (fun _ => []) (FifoList.mk [] 0) [])
        = some (st', lst)
      ∧ (lst.length
          = (if SizeClassToSize 22 < 4096
             then max (SizeClassToSize 22) (kMinMmapSize 4096)
                    / SizeClassToSize 22 - 1
             else max (SizeClassToSize 22) (kMinMmapSize 4096)
                    / SizeClassToSize 22)
        ∧ (∀ a ∈ lst, ∃ hdr, st'.heap a = some hdr
            ∧ hdr.chunk_state = CHUNK_AVAILABLE
            ∧ hdr.size_class = 22)
        ∧ st'.page_groups = (MallocInfoSt.mk emptyHeap (fun _ => [])
              (FifoList.mk [] 0) []).page_groups
            ++ [PageGroup.mk 8192
                 (8192 + (if SizeClassToSize 22 < 4096
                          then max (SizeClassToSize 22) (kMinMmapSize 4096)
                          else max (SizeClassToSize 22) (kMinMmapSize 4096)
                                 + 4096))
                 (SizeClassToSize 22)]) := by
  refine ⟨_, _, rfl, ?_⟩
  exact claim_C8_refill 4096 22 8192
    (MallocInfoSt.mk emptyHeap (fun _ => []) (FifoList.mk [] 0) []) _ _ rfl

/-- The drain loop pops only while the quarantine byte size strictly
exceeds the budget, and - starting from a consistent quarantine with
enough fuel - stops with the byte size at or below the budget. -/
theorem drainAux_spec (budget : Nat) :
    ∀ (fuel : Nat) (st : MallocInfoSt),
      st.quarantine.list.length ≤ fuel →
      st.quarantine.list.Nodup →
      FifoConsistent st.heap st.quarantine →
      (∀ ev ∈ (drainAux fuel budget st).2, budget < ev.sizeBefore)
      ∧ (drainAux fuel budget st).1.quarantine.size_ ≤ budget := by
  intro fuel
  induction fuel with
  | zero =>
    intro st hlen hnd hc
    have hnil : st.quarantine.list = [] :=
      List.eq_nil_of_length_eq_zero (by omega)
    have hz : st.quarantine.size_ = 0 := by
      rw [hc.1, hnil]; rfl
    exact ⟨fun ev hev => absurd hev (by simp [drainAux]),
      by simp only [drainAux]; omega⟩
  | succ fuel ih =>
    intro st hlen hnd hc
    by_cases hbs : budget < st.quarantine.size_
    · obtain ⟨m, rest, hlist⟩ :
          ∃ m rest, st.quarantine.list = m :: rest := by
        cases hl : st.quarantine.list with
        | nil =>
          exfalso
          have hz : st.quarantine.size_ = 0 := by rw [hc.1, hl]; rfl
          omega
        | cons a l => exact ⟨a, l, rfl⟩
      obtain ⟨hdr, hhm, hhq⟩ := hc.2 m (by rw [hlist]; exact List.mem_cons_self m rest)
      have hszm : chunkSizeAt st.heap m = SizeClassToSize hdr.size_class := by
        unfold chunkSizeAt; rw [hhm]
      have hsum : st.quarantine.size_
          = SizeClassToSize hdr.size_class
            + (rest.map (chunkSizeAt st.heap)).sum := by
        rw [hc.1, hlist]
        simp [hszm]
      have hge : ¬ st.quarantine.size_ < SizeClassToSize hdr.size_class := by
        omega
      have hmnotin : m ∉ rest := by
        rw [hlist] at hnd
        exact (List.nodup_cons.mp hnd).1
      have hndrest : rest.Nodup := by
        rw [hlist] at hnd
        exact (List.nodup_cons.mp hnd).2
      have hpop : popStep st
          = some (MallocInfoSt.mk
              (hupdate st.heap m
                { hdr with
                  chunk_state := CHUNK_AVAILABLE
                  next := freeListHead (st.free_lists hdr.size_class) })
              (fun sc => if sc = hdr.size_class
                         then m :: st.free_lists sc
                         else st.free_lists sc)
              (FifoList.mk rest
                (st.quarantine.size_ - SizeClassToSize hdr.size_class))
              st.page_groups,
            PopEvt.mk st.quarantine.size_ m
              (SizeClassToSize hdr.size_class)) := by
        unfold popStep
        simp only [hlist, hhm]
        rw [if_neg (not_not_intro hhq)]
        rw [if_neg hge]
      have hconsistent1 : FifoConsistent
          (hupdate st.heap m
            { hdr with
              chunk_state := CHUNK_AVAILABLE
              next := freeListHead (st.free_lists hdr.size_class) })
          (FifoList.mk rest
            (st.quarantine.size_ - SizeClassToSize hdr.size_class)) := by
        constructor
        · have hmap : rest.map (chunkSizeAt (hupdate st.heap m
              { hdr with
                chunk_state := CHUNK_AVAILABLE
                next := freeListHead (st.free_lists hdr.size_class) }))
              = rest.map (chunkSizeAt st.heap) := by
            apply List.map_congr_left
            intro a ha
            have hne : ¬ a = m := fun hc2 => hmnotin (hc2 ▸ ha)
            unfold chunkSizeAt
            rw [hupdate_other _ _ _ _ hne]
          show st.quarantine.size_ - SizeClassToSize hdr.size_class = _
          rw [hmap]
          omega
        · intro a ha
          have hne : ¬ a = m := fun hc2 => hmnotin (hc2 ▸ ha)
          obtain ⟨hdra, hha, hqa⟩ :=
            hc.2 a (by rw [hlist]; exact List.mem_cons_of_mem m ha)
          exact ⟨hdra, by rw [hupdate_other _ _ _ _ hne]; exact hha, hqa⟩
      have hrec := ih
        (MallocInfoSt.mk
          (hupdate st.heap m
            { hdr with
              chunk_state := CHUNK_AVAILABLE
              next := freeListHead (st.free_lists hdr.size_class) })
          (fun sc => if sc = hdr.size_class
                     then m :: st.free_lists sc
                     else st.free_lists sc)
          (FifoList.mk rest
            (st.quarantine.size_ - SizeClassToSize hdr.size_class))
          st.page_groups)
        (by
          show rest.length ≤ fuel
          rw [hlist] at hlen
          simpa using hlen)
        hndrest
        hconsistent1
      simp only [drainAux]
      rw [if_pos hbs, hpop]
      simp only []
      constructor
      · intro ev hev
        rcases List.mem_cons.mp hev with heqv | hmem
        · rw [heqv]
          exact hbs
        · exact hrec.1 ev hmem
      · exact hrec.2
    · simp only [drainAux]
      rw [if_neg hbs]
      exact ⟨fun ev hev => absurd hev (by simp),
        by show st.quarantine.size_ ≤ budget; omega⟩

/-- C1 (amended): in SwallowThreadLocalMallocStorage - the only place a
chunk leaves the global quarantine - a chunk is transitioned from
Quarantined back to Available and pushed onto a free list (a pop event)
only while the global quarantine's total retained byte size strictly
exceeds the configured budget; and whenever a nonempty thread-local
quarantine is swallowed, popping repeats until the total retained size
is at most the budget.  (The total need not drop below the budget upon
each individual chunk's removal: see the counterexample.) -/
theorem claim_C1_quarantine_drain (budget : Nat) (st : MallocInfoSt)
    (q : FifoList) (xfl : Nat → List Nat) (eat : Bool)
    (hnodup : (st.quarantine.list ++ q.list).Nodup)
    (hcst : FifoConsistent st.heap st.quarantine)
    (hcq : FifoConsistent st.heap q) :
    (∀ ev ∈ (SwallowThreadLocalMallocStorage budget st q xfl eat).2,
       budget < ev.sizeBefore)
    ∧ (0 < q.size_ →
       (SwallowThreadLocalMallocStorage budget st q xfl
          eat).1.quarantine.size_ ≤ budget) := by
  unfold SwallowThreadLocalMallocStorage
  simp only []
  by_cases hq : 0 < q.size_
  · rw [if_pos hq]
    have hcons : FifoConsistent st.heap (fifoPushList st.quarantine q) := by
      constructor
      · show st.quarantine.size_ + q.size_
            = ((st.quarantine.list ++ q.list).map (chunkSizeAt st.heap)).sum
        rw [List.map_append, List.sum_append, ← hcst.1, ← hcq.1]
      · intro a ha
        rcases List.mem_append.mp ha with h1 | h2
        · exact hcst.2 a h1
        · exact hcq.2 a h2
    have hdrain := drainAux_spec budget
      ((fifoPushList st.quarantine q).list.length)
      { st with quarantine := fifoPushList st.quarantine q }
      (Nat.le_refl _) hnodup hcons
    constructor
    · intro ev hev
      exact hdrain.1 ev hev
    · intro _
      cases eat
      · exact hdrain.2
      · exact hdrain.2
  · rw [if_neg hq]
    exact ⟨fun ev hev => absurd hev (by simp),
      fun hq2 => absurd hq2 hq⟩

/-- C1 counterexample: with budget 1 and two 64-byte (class-6) chunks
arriving together from a thread-local quarantine, the first chunk is
transitioned back to Available at a moment when the total retained size
is 128: removing it leaves 64, which has not dropped below the budget -
refuting the claim that a chunk is never recycled until the total would
drop below the budget upon that chunk's removal. -/
theorem claim_C1_counterexample :
    ¬ (∀ ev ∈ (SwallowThreadLocalMallocStorage 1
          (MallocInfoSt.mk
            (hupdate (hupdate emptyHeap 1000
                (ChunkHdr.mk CHUNK_QUARANTINE 6 0 0 0 0 0)) 2000
              (ChunkHdr.mk CHUNK_QUARANTINE 6 0 0 0 0 0))
            (fun _ => []) (FifoList.mk [] 0) [])
          (FifoList.mk [1000, 2000] 128) (fun _ => []) false).2,
        ev.sizeBefore - ev.chunkSize < 1) := by
  decide

theorem claim_C1_witness :
    let h0 : Heap := hupdate (hupdate emptyHeap 1000
        (ChunkHdr.mk CHUNK_QUARANTINE 6 0 0 0 0 0)) 2000
      (ChunkHdr.mk CHUNK_QUARANTINE 6 0 0 0 0 0)
    let st : MallocInfoSt :=
      MallocInfoSt.mk h0 (fun _ => []) (FifoList.mk [] 0) []
    let q : FifoList := FifoList.mk [1000, 2000] 128
    (st.quarantine.list ++ q.list).Nodup
    ∧ FifoConsistent st.heap st.quarantine
    ∧ FifoConsistent st.heap q
    ∧ ((∀ ev ∈ (SwallowThreadLocalMallocStorage 1 st q (fun _ => [])
          false).2, 1 < ev.sizeBefore)
       ∧ (0 < q.size_ →
          (SwallowThreadLocalMallocStorage 1 st q (fun _ => [])
            false).1.quarantine.size_ ≤ 1)) := by
  intro h0 st q
  have hnodup : (st.quarantine.list ++ q.list).Nodup := by decide
  have hcst : FifoConsistent st.heap st.quarantine := by
    refine ⟨rfl, ?_⟩
    intro m hm
    exact absurd hm (List.not_mem_nil m)
  have hcq : FifoConsistent st.heap q := by
    refine ⟨by decide, ?_⟩
    intro m hm
    rcases List.mem_cons.mp hm with rfl | hm2
    · exact ⟨ChunkHdr.mk CHUNK_QUARANTINE 6 0 0 0 0 0, by decide, rfl⟩
    · rcases List.mem_cons.mp hm2 with rfl | hm3
      · exact ⟨ChunkHdr.mk CHUNK_QUARANTINE 6 0 0 0 0 0, by decide, rfl⟩
      · exact absurd hm3 (List.not_mem_nil m)
  exact ⟨hnodup, hcst, hcq,
    claim_C1_quarantine_drain 1 st q (fun _ => []) false hnodup hcst hcq⟩
